import Mathlib

/-!
Verification of the in-memory data model of `src/datamodel.py`
(CellProfiler-Analyst).

The Python class `DataModel` keeps per-image object counts, a cumulative-sum
array used for weighted random sampling, forward and reverse group maps, and
a lazily grown filter cache.  Python dictionaries are embedded as association
lists that preserve first-insertion order (the source itself relies only on
`self.data.keys()` returning a stable order, see the comment in
`GetRandomObject`); dictionary assignment `d[k] = v` is embedded as
`dictInsert`, which overwrites in place when the key exists and appends
otherwise.  Exceptions (`KeyError`, `IndexError`, numpy broadcast failures)
are embedded as `Option`: `none` means the Python code raises.
-/

/-- A component of a group key: the source stores ints or strings
(e.g. `(0, 'A01')`). -/
inductive GVal where
  | i : Int → GVal
  | s : String → GVal
deriving DecidableEq, Repr

/-- Result of Python `type(col)` on a group-key component, as recorded in
`groupColTypes`. -/
inductive GType where
  | tInt
  | tStr
deriving DecidableEq, Repr

/-- `type(col)` for a group-key component. -/
def GVal.gtype : GVal → GType
  | .i _ => .tInt
  | .s _ => .tStr

/-- An image key: a tuple of ints, e.g. `(TableNumber, ImageNumber)`. -/
abbrev ImKey := List Int

/-- A group key: a tuple of scalar values, e.g. `(0, 'A01')`. -/
abbrev GroupKey := List GVal

/-- Python dict lookup `d[k]` on an association list: first matching entry,
`none` when the key is absent (a `KeyError` in the source). -/
def alookup {α β : Type} [DecidableEq α] : List (α × β) → α → Option β
  | [], _ => none
  | p :: d, k => if p.1 = k then some p.2 else alookup d k

/-- Overwrite the value stored at key `k` (every entry carrying `k`). -/
def updateVal {α β : Type} [DecidableEq α] (d : List (α × β)) (k : α) (v : β) :
    List (α × β) :=
  d.map (fun p => if p.1 = k then (k, v) else p)

/-- Python dict assignment `d[k] = v`: overwrite in place when present,
append otherwise. -/
def dictInsert {α β : Type} [DecidableEq α] (d : List (α × β)) (k : α) (v : β) :
    List (α × β) :=
  if (alookup d k).isSome then updateVal d k v else d ++ [(k, v)]

/-- Run a fallible function over a list, failing as soon as one element
fails (a Python loop whose body may raise). -/
def optionMap {α β : Type} (f : α → Option β) : List α → Option (List β)
  | [] => some []
  | a :: l =>
    match f a with
    | none => none
    | some b =>
      match optionMap f l with
      | none => none
      | some bs => some (b :: bs)

/-- The state held by the Python `DataModel` singleton (`__init__`). -/
structure DataModel where
  data : List (ImKey × Nat)
  groupMaps : List (String × List (ImKey × GroupKey))
  revGroupMaps : List (String × List (GroupKey × List ImKey))
  groupColNames : List (String × List String)
  groupColTypes : List (String × List GType)
  cumSums : List Nat
  obCount : Nat
  keylist : List ImKey
  filterkeys : List (String × List ImKey)
deriving DecidableEq, Repr

/-- The fresh state built by `DataModel.__init__`. -/
def DataModel.init : DataModel :=
  { data := [], groupMaps := [], revGroupMaps := [], groupColNames := [],
    groupColTypes := [], cumSums := [], obCount := 0, keylist := [],
    filterkeys := [] }

/-- `IsEmpty`: `self.data == {}`. -/
def DataModel.IsEmpty (dm : DataModel) : Bool :=
  dm.data.isEmpty

/-- `DeleteModel`: resets `data`, `groupMaps`, `cumSums` and `obCount`
(and nothing else — the source leaves `keylist`, `revGroupMaps`,
`groupColNames`, `groupColTypes` and `filterkeys` untouched). -/
def DeleteModel (dm : DataModel) : DataModel :=
  { dm with data := [], groupMaps := [], cumSums := [], obCount := 0 }

/-- The external data source (`db` and `p._filters`) as consumed by
`PopulateModel` and the query methods. -/
structure DB where
  imKeys : List ImKey
  perImageCounts : List (ImKey × Nat)
  groupMaps : List (String × List (ImKey × GroupKey))
  revGroupMaps : List (String × List (GroupKey × List ImKey))
  groupColNames : List (String × List String)
  filters : List (String × List ImKey)

/-- The cumulative-sum loop of `PopulateModel`:
`cumSums[i+1] = cumSums[i] + data[keylist[i]]`, starting from the running
sum `s` (`0` at the top).  Produces the whole array, of length
`ks.length + 1`. -/
def buildCumSums (count : ImKey → Nat) : List ImKey → Nat → List Nat
  | [], s => [s]
  | k :: ks, s => s :: buildCumSums count ks (s + count k)

/-- `[type(col) for col in groupMaps[group].items()[0][1]]`: the component
types of the first stored group key of a dimension.  On an empty dimension
the source raises `IndexError`; that case is embedded as `[]` and never
arises in the developments below, which use non-empty group maps. -/
def groupKeyTypes (m : List (ImKey × GroupKey)) : List GType :=
  (m.head?.map (fun p => p.2.map GVal.gtype)).getD []

/-- The body of `PopulateModel` after the early-return checks: initialize
every image key to count 0, overwrite with the per-image counts while
accumulating `obCount` (one Python loop with two independent effects,
embedded as two folds), fix `keylist`, build `cumSums`, and install the
group maps and column metadata fetched from the data source.  The
`int(k)` key conversions are identities here since keys are already
`List Int`; the `db is None` and `check_tables` branches concern only the
external connection. -/
def populateBody (db : DB) (dm : DataModel) : DataModel :=
  let data1 := db.imKeys.foldl (fun d k => dictInsert d k 0) dm.data
  let data2 := db.perImageCounts.foldl (fun d r => dictInsert d r.1 r.2) data1
  let obCount := db.perImageCounts.foldl (fun c r => c + r.2) dm.obCount
  let keylist := data2.map Prod.fst
  let cumSums := buildCumSums (fun k => (alookup data2 k).getD 0) keylist 0
  let colTypes :=
    db.groupMaps.foldl (fun ts g => dictInsert ts g.1 (groupKeyTypes g.2))
      dm.groupColTypes
  { data := data2, groupMaps := db.groupMaps, revGroupMaps := db.revGroupMaps,
    groupColNames := db.groupColNames, groupColTypes := colTypes,
    cumSums := cumSums, obCount := obCount, keylist := keylist,
    filterkeys := dm.filterkeys }

/-- `PopulateModel(delete_model)`: delete first when asked, otherwise
return unchanged when already populated, else build. -/
def PopulateModel (db : DB) (dm : DataModel) (delete_model : Bool) : DataModel :=
  if delete_model then populateBody db (DeleteModel dm)
  else if dm.IsEmpty then populateBody db dm
  else dm

/-- `np.searchsorted(a, v, 'left')` on a sorted array: the smallest index
`j` with `a[j] >= v`, or `a.length` when no element qualifies. -/
def searchsortedLeft (a : List Nat) (v : Nat) : Nat :=
  match a with
  | [] => 0
  | x :: xs => if v ≤ x then 0 else searchsortedLeft xs v + 1

/-- The skip loop `while a[i] == a[i-1]: i -= 1` of the samplers.  The
source would wrap to negative indices below 0; for draws in `[1, total]`
the loop never reaches index 0 (proved below), so the recursion simply
stops there. -/
def firstOfRun (a : List Nat) : Nat → Nat
  | 0 => 0
  | i + 1 => if a.getD (i + 1) 0 = a.getD i 0 then firstOfRun a i else i + 1

/-- The index computation of `GetRandomObject` for a drawn integer `t`
(`randint(1, obCount)` in the source): left binary search on `cumSums`,
the zero-count skip loop, then the owning image key `keys()[imIdx-1]` and
the 1-based in-image object rank `t - cumSums[imIdx-1]`.  `none` embeds
the `IndexError` the source would raise on an out-of-range list index. -/
def GetRandomObject (dm : DataModel) (t : Nat) : Option (ImKey × Nat) :=
  let imIdx := firstOfRun dm.cumSums (searchsortedLeft dm.cumSums t)
  match dm.keylist.get? (imIdx - 1) with
  | none => none
  | some k => some (k, t - dm.cumSums.getD (imIdx - 1) 0)

/-- `np.cumsum` from a running total `s`: element `i` is `s` plus the sum
of the first `i+1` inputs (no leading zero). -/
def cumsumFrom (s : Nat) : List Nat → List Nat
  | [] => []
  | c :: cs => (s + c) :: cumsumFrom (s + c) cs

/-- `np.cumsum(counts)`. -/
def npCumsum (counts : List Nat) : List Nat :=
  cumsumFrom 0 counts

/-- Lookup the counts of the supplied image keys
(`[self.data[imKey] for imKey in imKeys]`); `none` embeds the `KeyError`
on an image key absent from the model. -/
def lookupCounts (d : List (ImKey × Nat)) : List ImKey → Option (List Nat)
  | [] => some []
  | k :: ks =>
    match alookup d k with
    | none => none
    | some c =>
      match lookupCounts d ks with
      | none => none
      | some cs => some (c :: cs)

/-- One draw of the subset branch of `GetRandomObjects`: search the local
cumulative array `sums` (no leading zero), run the skip loop and adjust
the rank only when the found index is non-zero, then pick
`imKeys[index]`. -/
def subsetDraw (ks : List ImKey) (sums : List Nat) (t : Nat) :
    Option (ImKey × Nat) :=
  let index := searchsortedLeft sums t
  let ir :
      Nat × Nat :=
    if index ≠ 0 then
      let i := firstOfRun sums index
      (i, t - sums.getD (i - 1) 0)
    else (index, t)
  match ks.get? ir.1 with
  | none => none
  | some k => some (k, ir.2)

/-- `GetRandomObjects(N, imKeys)`, with the `N` random draws supplied as
the list `draws` (each entry is one `randint(1, total)` result).  The
returned pairs `(imKey, rank)` are the arguments the source passes to
`db.GetObjectIDAtIndex`. -/
def GetRandomObjects (dm : DataModel) (imKeys : Option (List ImKey))
    (draws : List Nat) : Option (List (ImKey × Nat)) :=
  match imKeys with
  | none => optionMap (fun t => GetRandomObject dm t) draws
  | some [] => some []
  | some ks =>
    match lookupCounts dm.data ks with
    | none => none
    | some counts =>
      let sums := npCumsum counts
      if sums.getLastD 0 < 1 then some []
      else optionMap (subsetDraw ks sums) draws

/-- `GetImagesInGroup(group, groupKey, filter)`: the `try/except KeyError`
around `revGroupMaps[group][groupKey]` returns `[]` on either a missing
dimension or a missing group key; otherwise the filter, if supplied, is
computed once, cached in `filterkeys`, and intersected (the unordered
Python set intersection is embedded as a sublist filter).  The result is
paired with the possibly updated model state; `none` embeds the uncaught
`KeyError` on an unknown filter name in `p._filters`. -/
def GetImagesInGroup (db : DB) (dm : DataModel) (group : String)
    (groupKey : GroupKey) (filter : Option String) :
    Option (List ImKey × DataModel) :=
  match (alookup dm.revGroupMaps group).bind (fun m => alookup m groupKey) with
  | none => some ([], dm)
  | some imkeys =>
    match filter with
    | none => some (imkeys, dm)
    | some f =>
      match alookup dm.filterkeys f with
      | some cached => some (imkeys.filter (fun x => decide (x ∈ cached)), dm)
      | none =>
        match alookup db.filters f with
        | none => none
        | some fk =>
          some (imkeys.filter (fun x => decide (x ∈ fk)),
            { dm with filterkeys := dictInsert dm.filterkeys f fk })

/-- The wildcard sentinel `'__ANY__'`. -/
def wildcard : GVal :=
  GVal.s "__ANY__"

/-- `matches(key1, key2)`: positions agree pairwise, a wildcard in the
query `key2` matching anything (`zip` truncates like Python). -/
def gkMatches (key1 key2 : GroupKey) : Bool :=
  (key1.zip key2).all (fun ab => decide (ab.1 = ab.2) || decide (ab.2 = wildcard))

/-- `GetImagesInGroupWithWildcards`: when the query contains the wildcard
sentinel, accumulate the image keys of every stored group key that
matches (`revGroupMaps[group]` raising an uncaught `KeyError`, embedded
as `none`, when the dimension is absent); otherwise delegate to
`GetImagesInGroup`. -/
def GetImagesInGroupWithWildcards (db : DB) (dm : DataModel) (group : String)
    (groupKey : GroupKey) (filter : Option String) :
    Option (List ImKey × DataModel) :=
  if wildcard ∈ groupKey then
    match alookup dm.revGroupMaps group with
    | none => none
    | some rm =>
      some (rm.foldl
        (fun acc p => if gkMatches p.1 groupKey then acc ++ p.2 else acc) [],
        dm)
  else GetImagesInGroup db dm group groupKey filter

/-- In-place numpy addition `a += b` on one-dimensional arrays: equal
lengths add elementwise; a length-1 `b` broadcasts over `a`; any other
shape combination raises (`none`), because the output shape of an
in-place operation cannot change. -/
def npAdd (a b : List Int) : Option (List Int) :=
  if b.length = a.length then some (a.zipWith (· + ·) b)
  else if b.length = 1 then some (a.map (fun x => x + b.headD 0))
  else none

/-- The first loop of `SumToGroup`: set every reached group key to a fresh
zero vector of width `nvals` (`KeyError`, i.e. `none`, on an entity
absent from the forward group map). -/
def initLoop (gm : List (ImKey × GroupKey)) (nvals : Nat) :
    List (ImKey × List Int) → List (GroupKey × List Int) →
    Option (List (GroupKey × List Int))
  | [], gd => some gd
  | p :: rest, gd =>
    match alookup gm p.1 with
    | none => none
    | some gk => initLoop gm nvals rest (dictInsert gd gk (List.replicate nvals 0))

/-- The second loop of `SumToGroup`:
`groupData[groupMaps[group][imKey]] += vals`. -/
def accLoop (gm : List (ImKey × GroupKey)) :
    List (ImKey × List Int) → List (GroupKey × List Int) →
    Option (List (GroupKey × List Int))
  | [], gd => some gd
  | p :: rest, gd =>
    match alookup gm p.1 with
    | none => none
    | some gk =>
      match alookup gd gk with
      | none => none
      | some cur =>
        match npAdd cur p.2 with
        | none => none
        | some nv => accLoop gm rest (dictInsert gd gk nv)

/-- `SumToGroup(imdata, group)`: fetch the forward map of the dimension,
take the width from the first value vector (`imdata.values()[0]`, an
`IndexError` on empty input), zero-initialize every reached group key,
then accumulate. -/
def SumToGroup (dm : DataModel) (imdata : List (ImKey × List Int))
    (group : String) : Option (List (GroupKey × List Int)) :=
  match alookup dm.groupMaps group with
  | none => none
  | some gm =>
    match imdata.head? with
    | none => none
    | some p0 =>
      match initLoop gm p0.2.length imdata [] with
      | none => none
      | some gd0 => accLoop gm imdata gd0

/-- A small concrete data source: three images with object counts 2, 0
and 3 (one zero-count image, as in the sampler's degenerate case) and one
grouping dimension. -/
def dbC : DB :=
  { imKeys := [[0], [1], [2]],
    perImageCounts := [([0], 2), ([1], 0), ([2], 3)],
    groupMaps := [("Well", [([0], [GVal.i 0, GVal.s "A01"]),
                            ([1], [GVal.i 0, GVal.s "A02"]),
                            ([2], [GVal.i 1, GVal.s "A01"])])],
    revGroupMaps := [("Well", [([GVal.i 0, GVal.s "A01"], [[0]]),
                               ([GVal.i 0, GVal.s "A02"], [[1]]),
                               ([GVal.i 1, GVal.s "A01"], [[2]])])],
    groupColNames := [("Well", ["table", "well"])],
    filters := [] }

/-- The model populated from `dbC`. -/
def dmC : DataModel :=
  PopulateModel dbC DataModel.init false

/-- The reverse map of the wildcard example of the specification: group
keys `(0,'A01')`, `(0,'A02')`, `(1,'A01')` holding entities `e1 = (1)`,
`e2 = (2)`, `e3 = (3)`. -/
def rmW : List (GroupKey × List ImKey) :=
  [([GVal.i 0, GVal.s "A01"], [[1]]),
   ([GVal.i 0, GVal.s "A02"], [[2]]),
   ([GVal.i 1, GVal.s "A01"], [[3]])]

/-- A model carrying `rmW` as the reverse map of dimension `Well`. -/
def dmW : DataModel :=
  { DataModel.init with revGroupMaps := [("Well", rmW)] }

/-- The forward map of the aggregation examples: entities `(1)` and `(2)`
in group `g`, entity `(3)` in group `g2`. -/
def gmG : List (ImKey × GroupKey) :=
  [([1], [GVal.s "g"]), ([2], [GVal.s "g"]), ([3], [GVal.s "g2"])]

/-- A model carrying `gmG` as the forward map of dimension `G`. -/
def dmG : DataModel :=
  { DataModel.init with groupMaps := [("G", gmG)] }

/-- The aggregation example of the specification:
`e1:[1,2]`, `e2:[3,4]` in group `g` and `e3:[5,6]` in group `g2`. -/
def imdata7 : List (ImKey × List Int) :=
  [([1], [1, 2]), ([2], [3, 4]), ([3], [5, 6])]

/-- Aggregation input with a length-3 second vector against width 2. -/
def imdata8a : List (ImKey × List Int) :=
  [([1], [1, 2]), ([2], [3, 4, 5])]

/-- Aggregation input with a length-1 second vector against width 2
(the numpy broadcast case). -/
def imdata8b : List (ImKey × List Int) :=
  [([1], [1, 2]), ([2], [3])]

/-- Aggregation input whose second entity `(9)` has no group in `gmG`. -/
def imdata8u : List (ImKey × List Int) :=
  [([1], [1, 2]), ([9], [3, 4])]

theorem alookup_eq_none_iff {α β : Type} [DecidableEq α]
    (d : List (α × β)) (k : α) :
    alookup d k = none ↔ k ∉ d.map Prod.fst := by
  induction d with
  | nil => simp [alookup]
  | cons p d ih =>
    by_cases h : p.1 = k
    · simp [alookup, h]
    · simp [alookup, h, ih, Ne.symm h]

theorem alookup_mem {α β : Type} [DecidableEq α]
    {d : List (α × β)} {k : α} {v : β}
    (h : alookup d k = some v) : (k, v) ∈ d := by
  induction d with
  | nil => simp [alookup] at h
  | cons p d ih =>
    by_cases hk : p.1 = k
    · simp [alookup, hk] at h
      subst hk h
      simp
    · simp [alookup, hk] at h
      exact List.mem_cons_of_mem _ (ih h)

theorem keys_updateVal {α β : Type} [DecidableEq α]
    (d : List (α × β)) (k : α) (v : β) :
    (updateVal d k v).map Prod.fst = d.map Prod.fst := by
  induction d with
  | nil => rfl
  | cons p d ih =>
    by_cases h : p.1 = k <;> simp [updateVal, h] at ih ⊢ <;> simpa [h] using ih

theorem alookup_updateVal {α β : Type} [DecidableEq α]
    (d : List (α × β)) (k : α) (v : β) (k2 : α) :
    alookup (updateVal d k v) k2 =
      if k2 = k then (alookup d k).map (fun _ => v) else alookup d k2 := by
  induction d with
  | nil => simp [updateVal, alookup]
  | cons p d ih =>
    by_cases h : p.1 = k
    · by_cases h2 : k2 = k
      · subst h h2
        simp [updateVal, alookup]
      · simp only [updateVal, alookup, List.map_cons, h, if_true, if_pos,
          Ne.symm h2, if_neg, if_false] at ih ⊢
        simpa [h2, Ne.symm h2] using ih
    · by_cases h2 : p.1 = k2
      · subst h2
        have hne : ¬(p.1 = k) := h
        simp [updateVal, alookup, h, hne]
      · simp [updateVal, alookup, h, h2] at ih ⊢
        exact ih

theorem alookup_append_single {α β : Type} [DecidableEq α]
    (d : List (α × β)) (k : α) (v : β) (k2 : α) :
    alookup (d ++ [(k, v)]) k2 =
      match alookup d k2 with
      | some w => some w
      | none => if k = k2 then some v else none := by
  induction d with
  | nil => simp [alookup]
  | cons p d ih =>
    by_cases h : p.1 = k2 <;> simp [alookup, h, ih]

theorem alookup_dictInsert {α β : Type} [DecidableEq α]
    (d : List (α × β)) (k : α) (v : β) (k2 : α) :
    alookup (dictInsert d k v) k2 =
      if k2 = k then some v else alookup d k2 := by
  unfold dictInsert
  by_cases hs : (alookup d k).isSome
  · rw [if_pos hs, alookup_updateVal]
    rcases Option.isSome_iff_exists.mp hs with ⟨w, hw⟩
    by_cases h2 : k2 = k <;> simp [h2, hw]
  · rw [if_neg hs, alookup_append_single]
    have hnone : alookup d k = none := Option.not_isSome_iff_eq_none.mp hs
    by_cases h2 : k2 = k
    · subst h2
      simp [hnone]
    · cases h : alookup d k2 <;> simp [h, h2, Ne.symm h2]

theorem keys_dictInsert {α β : Type} [DecidableEq α]
    (d : List (α × β)) (k : α) (v : β) :
    (dictInsert d k v).map Prod.fst =
      if (alookup d k).isSome then d.map Prod.fst
      else d.map Prod.fst ++ [k] := by
  unfold dictInsert
  by_cases hs : (alookup d k).isSome <;> simp [hs, keys_updateVal]

theorem nodup_keys_dictInsert {α β : Type} [DecidableEq α]
    {d : List (α × β)} (k : α) (v : β)
    (h : (d.map Prod.fst).Nodup) :
    ((dictInsert d k v).map Prod.fst).Nodup := by
  rw [keys_dictInsert]
  by_cases hs : (alookup d k).isSome
  · simpa [hs] using h
  · have hk : k ∉ d.map Prod.fst :=
      (alookup_eq_none_iff d k).mp (Option.not_isSome_iff_eq_none.mp hs)
    simp [hs, List.nodup_append, h, hk]

theorem mem_dictInsert {α β : Type} [DecidableEq α]
    {d : List (α × β)} {k : α} {v : β} {p : α × β}
    (h : p ∈ dictInsert d k v) : p = (k, v) ∨ p ∈ d := by
  unfold dictInsert at h
  by_cases hs : (alookup d k).isSome
  · rw [if_pos hs] at h
    rcases List.mem_map.mp h with ⟨q, hq, hfq⟩
    by_cases hk : q.1 = k
    · left
      simpa [hk] using hfq.symm
    · right
      rw [if_neg hk] at hfq
      exact hfq ▸ hq
  · rw [if_neg hs] at h
    rcases List.mem_append.mp h with h1 | h1
    · exact Or.inr h1
    · exact Or.inl (by simpa using h1)

theorem updateVal_id_of_not_mem {α β : Type} [DecidableEq α]
    {d : List (α × β)} {k : α} (v : β)
    (h : k ∉ d.map Prod.fst) : updateVal d k v = d := by
  induction d with
  | nil => rfl
  | cons p d ih =>
    simp only [List.map_cons, List.mem_cons] at h
    push_neg at h
    have h1 : ¬(p.1 = k) := fun he => h.1 he.symm
    unfold updateVal at ih ⊢
    simp only [List.map_cons, if_neg h1]
    rw [ih h.2]

theorem valSum_updateVal {d : List (ImKey × Nat)} {k : ImKey} (v : Nat)
    (hnd : (d.map Prod.fst).Nodup) (hlk : alookup d k = some 0) :
    ((updateVal d k v).map Prod.snd).sum = (d.map Prod.snd).sum + v := by
  induction d with
  | nil => simp [alookup] at hlk
  | cons p d ih =>
    simp only [List.map_cons, List.nodup_cons] at hnd
    by_cases h : p.1 = k
    · have hz : p.2 = 0 := by
        simpa [alookup, h] using hlk
      have hnk : k ∉ d.map Prod.fst := h ▸ hnd.1
      have hstep : updateVal (p :: d) k v = (k, v) :: d := by
        unfold updateVal
        simp only [List.map_cons, if_pos h]
        exact congrArg (fun l => (k, v) :: l) (updateVal_id_of_not_mem v hnk)
      rw [hstep]
      simp only [List.map_cons, List.sum_cons, hz]
      omega
    · simp only [alookup, h, if_false] at hlk
      have hstep : updateVal (p :: d) k v = p :: updateVal d k v := by
        unfold updateVal
        simp only [List.map_cons, if_neg h]
      rw [hstep]
      simp only [List.map_cons, List.sum_cons]
      rw [ih hnd.2 hlk]
      omega

theorem valSum_dictInsert_of_zero {d : List (ImKey × Nat)} {k : ImKey} (v : Nat)
    (hnd : (d.map Prod.fst).Nodup) (hz : (alookup d k).getD 0 = 0) :
    ((dictInsert d k v).map Prod.snd).sum = (d.map Prod.snd).sum + v := by
  unfold dictInsert
  by_cases hs : (alookup d k).isSome
  · rcases Option.isSome_iff_exists.mp hs with ⟨w, hw⟩
    have hw0 : alookup d k = some 0 := by
      rw [hw] at hz ⊢
      simpa using hz
    rw [if_pos hs]
    exact valSum_updateVal v hnd hw0
  · rw [if_neg hs]
    simp

theorem valSum_res_fold :
    ∀ (res : List (ImKey × Nat)) (d : List (ImKey × Nat)),
    (d.map Prod.fst).Nodup → (res.map Prod.fst).Nodup →
    (∀ k ∈ res.map Prod.fst, (alookup d k).getD 0 = 0) →
    (((res.foldl (fun d r => dictInsert d r.1 r.2) d).map Prod.snd).sum =
      (d.map Prod.snd).sum + (res.map Prod.snd).sum ∧
     ((res.foldl (fun d r => dictInsert d r.1 r.2) d).map Prod.fst).Nodup)
  | [], d => fun hnd _ _ => by simp [hnd]
  | r :: res, d => fun hnd hres hz => by
    simp only [List.map_cons, List.nodup_cons] at hres
    have hz1 : (alookup d r.1).getD 0 = 0 := hz r.1 (by simp)
    have hstep := valSum_dictInsert_of_zero (d := d) (k := r.1) r.2 hnd hz1
    have hnd1 := nodup_keys_dictInsert (d := d) r.1 r.2 hnd
    have hz2 : ∀ k ∈ res.map Prod.fst, (alookup (dictInsert d r.1 r.2) k).getD 0 = 0 := by
      intro k hk
      have hne : k ≠ r.1 := fun he => hres.1 (he ▸ hk)
      rw [alookup_dictInsert, if_neg hne]
      exact hz k (by simp [hk])
    have ih := valSum_res_fold res (dictInsert d r.1 r.2) hnd1 hres.2 hz2
    constructor
    · simp only [List.foldl_cons, List.map_cons, List.sum_cons]
      rw [ih.1, hstep]
      omega
    · simpa using ih.2

theorem allzero_imkeys_fold :
    ∀ (ks : List ImKey) (d : List (ImKey × Nat)),
    (∀ p ∈ d, p.2 = 0) →
    ∀ p ∈ ks.foldl (fun d k => dictInsert d k 0) d, p.2 = 0
  | [], _ => fun h => h
  | k :: ks, d => fun h => by
    refine allzero_imkeys_fold ks (dictInsert d k 0) ?_
    intro p hp
    rcases mem_dictInsert hp with h1 | h1
    · simp [h1]
    · exact h p h1

theorem nodup_imkeys_fold :
    ∀ (ks : List ImKey) (d : List (ImKey × Nat)),
    (d.map Prod.fst).Nodup →
    ((ks.foldl (fun d k => dictInsert d k 0) d).map Prod.fst).Nodup
  | [], _ => fun h => h
  | k :: ks, d => fun h =>
    nodup_imkeys_fold ks (dictInsert d k 0) (nodup_keys_dictInsert k 0 h)

theorem alookup_getD_zero_of_allzero {d : List (ImKey × Nat)}
    (h : ∀ p ∈ d, p.2 = 0) (k : ImKey) : (alookup d k).getD 0 = 0 := by
  cases hl : alookup d k with
  | none => rfl
  | some v => simpa using h _ (alookup_mem hl)

theorem foldl_add_snd {α : Type} :
    ∀ (res : List (α × Nat)) (c : Nat),
    res.foldl (fun c r => c + r.2) c = c + (res.map Prod.snd).sum
  | [], c => by simp
  | r :: res, c => by
    simp only [List.foldl_cons, List.map_cons, List.sum_cons]
    rw [foldl_add_snd res (c + r.2)]
    omega

theorem sum_lookup_keys :
    ∀ {d : List (ImKey × Nat)}, (d.map Prod.fst).Nodup →
    ((d.map Prod.fst).map (fun k => (alookup d k).getD 0)).sum =
      (d.map Prod.snd).sum := by
  intro d
  induction d with
  | nil => simp
  | cons p d ih =>
    intro hnd
    simp only [List.map_cons, List.nodup_cons] at hnd
    have htail : (d.map Prod.fst).map
        (fun k => (alookup (p :: d) k).getD 0) =
        (d.map Prod.fst).map (fun k => (alookup d k).getD 0) := by
      refine List.map_congr_left ?_
      intro k hk
      have hne : ¬(p.1 = k) := fun he => hnd.1 (he ▸ hk)
      simp [alookup, hne]
    simp only [List.map_cons, List.sum_cons]
    rw [htail, ih hnd.2]
    simp [alookup]

theorem buildCumSums_length (c : ImKey → Nat) :
    ∀ (ks : List ImKey) (s : Nat), (buildCumSums c ks s).length = ks.length + 1
  | [], _ => rfl
  | _ :: ks, s => by simp [buildCumSums, buildCumSums_length c ks]

theorem buildCumSums_getD_zero (c : ImKey → Nat) (ks : List ImKey) (s : Nat) :
    (buildCumSums c ks s).getD 0 0 = s := by
  cases ks <;> rfl

theorem buildCumSums_getD (c : ImKey → Nat) :
    ∀ (ks : List ImKey) (s : Nat) (i : Nat), i ≤ ks.length →
    (buildCumSums c ks s).getD i 0 = s + ((ks.take i).map c).sum
  | [], s, i => by
    intro hi
    have h0 : i = 0 := Nat.le_zero.mp (by simpa using hi)
    subst h0
    simp [buildCumSums]
  | k :: ks, s, 0 => by
    intro _
    simp [buildCumSums]
  | k :: ks, s, i + 1 => by
    intro hi
    have := buildCumSums_getD c ks (s + c k) i (by simpa using hi)
    simp only [buildCumSums, List.getD_cons_succ, List.take_succ_cons,
      List.map_cons, List.sum_cons]
    rw [this]
    omega

theorem buildCumSums_getLast? (c : ImKey → Nat) :
    ∀ (ks : List ImKey) (s : Nat),
    (buildCumSums c ks s).getLast? = some (s + (ks.map c).sum)
  | [], s => by simp [buildCumSums]
  | k :: ks, s => by
    have := buildCumSums_getLast? c ks (s + c k)
    simp only [buildCumSums, List.map_cons, List.sum_cons]
    rw [List.getLast?_cons, this]
    simp only [Option.getD_some]
    congr 1
    omega

theorem buildCumSums_chain (c : ImKey → Nat) :
    ∀ (ks : List ImKey) (s : Nat),
    List.Chain' (· ≤ ·) (buildCumSums c ks s)
  | [], _ => by simp [buildCumSums]
  | k :: ks, s => by
    have htail := buildCumSums_chain c ks (s + c k)
    have hhead : ∀ y ∈ (buildCumSums c ks (s + c k)).head?, s ≤ y := by
      intro y hy
      cases ks <;> simp [buildCumSums] at hy <;> omega
    exact List.chain'_cons'.mpr ⟨hhead, htail⟩

theorem searchsortedLeft_bcs_zero (c : ImKey → Nat) (ks : List ImKey)
    {s t : Nat} (h : t ≤ s) :
    searchsortedLeft (buildCumSums c ks s) t = 0 := by
  cases ks <;> simp [buildCumSums, searchsortedLeft, h]

theorem bcs_search (c : ImKey → Nat) :
    ∀ (ks : List ImKey) (s t : Nat), s < t → t ≤ s + (ks.map c).sum →
    ∃ j, searchsortedLeft (buildCumSums c ks s) t = j ∧
      1 ≤ j ∧ j ≤ ks.length ∧
      (buildCumSums c ks s).getD (j - 1) 0 < t ∧
      t ≤ (buildCumSums c ks s).getD j 0 ∧
      (buildCumSums c ks s).getD j 0 =
        (buildCumSums c ks s).getD (j - 1) 0 + c (ks.getD (j - 1) [])
  | [], s, t => by
    intro hlt hle
    simp at hle
    omega
  | k :: ks, s, t => by
    intro hlt hle
    have hsplit : buildCumSums c (k :: ks) s =
        s :: buildCumSums c ks (s + c k) := rfl
    have hstep : searchsortedLeft (buildCumSums c (k :: ks) s) t =
        searchsortedLeft (buildCumSums c ks (s + c k)) t + 1 := by
      rw [hsplit]
      cases hks : buildCumSums c ks (s + c k) with
      | nil => exact absurd (buildCumSums_length c ks (s + c k)) (by simp [hks])
      | cons x xs =>
        simp [searchsortedLeft, Nat.not_le.mpr hlt]
    by_cases h : t ≤ s + c k
    · have hz : searchsortedLeft (buildCumSums c ks (s + c k)) t = 0 :=
        searchsortedLeft_bcs_zero c ks h
      refine ⟨1, by rw [hstep, hz], le_refl 1, by simp, ?_, ?_, ?_⟩
      · simpa [hsplit] using hlt
      · rw [hsplit]
        show t ≤ (s :: buildCumSums c ks (s + c k)).getD 1 0
        rw [List.getD_cons_succ, buildCumSums_getD_zero]
        exact h
      · rw [hsplit]
        show (s :: buildCumSums c ks (s + c k)).getD 1 0 =
          (s :: buildCumSums c ks (s + c k)).getD 0 0 + c ((k :: ks).getD 0 [])
        rw [List.getD_cons_succ, List.getD_cons_zero, List.getD_cons_zero,
          buildCumSums_getD_zero]
    · have hle2 : t ≤ (s + c k) + (ks.map c).sum := by
        simp only [List.map_cons, List.sum_cons] at hle
        omega
      rcases bcs_search c ks (s + c k) t (by omega) hle2 with
        ⟨j2, hj2, h1, hlen, hprev, hcur, hcnt⟩
      obtain ⟨j0, rfl⟩ : ∃ j0, j2 = j0 + 1 := ⟨j2 - 1, by omega⟩
      refine ⟨j0 + 2, by rw [hstep, hj2], by omega, by simpa using hlen, ?_, ?_, ?_⟩
      · simpa [hsplit] using hprev
      · simpa [hsplit] using hcur
      · simpa [hsplit] using hcnt

theorem firstOfRun_eq {a : List Nat} {j : Nat} (h1 : 1 ≤ j)
    (h : a.getD (j - 1) 0 < a.getD j 0) : firstOfRun a j = j := by
  obtain ⟨j0, rfl⟩ : ∃ j0, j = j0 + 1 := ⟨j - 1, by omega⟩
  have hne : ¬(a.getD (j0 + 1) 0 = a.getD j0 0) := by
    simpa using Nat.ne_of_gt h
  rw [firstOfRun, if_neg hne]

theorem get?_eq_some_getD {α : Type} [Inhabited α] (l : List α) (n : Nat)
    (d : α) (h : n < l.length) : l.get? n = some (l.getD n d) := by
  rw [List.get?_eq_getElem?, List.getElem?_eq_getElem h,
    List.getD_eq_getElem?_getD, List.getElem?_eq_getElem h]
  rfl

theorem sum_snd_eq_zero {d : List (ImKey × Nat)} (h : ∀ p ∈ d, p.2 = 0) :
    (d.map Prod.snd).sum = 0 := by
  refine List.sum_eq_zero ?_
  intro x hx
  rcases List.mem_map.mp hx with ⟨p, hp, rfl⟩
  exact h p hp

theorem populated_model_facts (db : DB) (dm : DataModel)
    (hdm : dm = PopulateModel db DataModel.init false)
    (hnd : (db.perImageCounts.map Prod.fst).Nodup) :
    (dm.data.map Prod.fst).Nodup ∧
    dm.keylist = dm.data.map Prod.fst ∧
    dm.cumSums =
      buildCumSums (fun k => (alookup dm.data k).getD 0) dm.keylist 0 ∧
    dm.obCount = (dm.data.map Prod.snd).sum ∧
    (dm.keylist.map (fun k => (alookup dm.data k).getD 0)).sum = dm.obCount := by
  subst hdm
  have hzero : ∀ p ∈ db.imKeys.foldl (fun d k => dictInsert d k 0)
      ([] : List (ImKey × Nat)), p.2 = 0 :=
    allzero_imkeys_fold db.imKeys [] (by simp)
  have hnd1 : ((db.imKeys.foldl (fun d k => dictInsert d k 0)
      ([] : List (ImKey × Nat))).map Prod.fst).Nodup :=
    nodup_imkeys_fold db.imKeys [] (by simp)
  have hzl : ∀ k ∈ db.perImageCounts.map Prod.fst,
      (alookup (db.imKeys.foldl (fun d k => dictInsert d k 0)
        ([] : List (ImKey × Nat))) k).getD 0 = 0 :=
    fun k _ => alookup_getD_zero_of_allzero hzero k
  have hfold := valSum_res_fold db.perImageCounts
    (db.imKeys.foldl (fun d k => dictInsert d k 0) []) hnd1 hnd hzl
  have hdata : (PopulateModel db DataModel.init false).data =
      db.perImageCounts.foldl (fun d r => dictInsert d r.1 r.2)
        (db.imKeys.foldl (fun d k => dictInsert d k 0) []) := rfl
  have hobc : (PopulateModel db DataModel.init false).obCount =
      db.perImageCounts.foldl (fun c r => c + r.2) 0 := rfl
  have hob : (PopulateModel db DataModel.init false).obCount =
      ((PopulateModel db DataModel.init false).data.map Prod.snd).sum := by
    rw [hdata, hobc, foldl_add_snd, hfold.1, sum_snd_eq_zero hzero]
  have hkeyl : (PopulateModel db DataModel.init false).keylist =
      (PopulateModel db DataModel.init false).data.map Prod.fst := rfl
  have hnodup : ((PopulateModel db DataModel.init false).data.map
      Prod.fst).Nodup := by
    rw [hdata]
    exact hfold.2
  refine ⟨hnodup, hkeyl, rfl, hob, ?_⟩
  rw [hkeyl, sum_lookup_keys hnodup, ← hob]

/-- C5: for a freshly populated model (the per-image-count rows having
pairwise distinct keys, as a per-image aggregate does), the cumulative
array has length `N + 1`, starts at `0`, its `i`-th element is the sum of
the counts of the first `i` images in key order, it is non-decreasing, and
its last element equals `obCount`, which equals the sum of all per-image
counts. -/
theorem c5_cumsum_invariants (db : DB) (dm : DataModel)
    (hdm : dm = PopulateModel db DataModel.init false)
    (hnd : (db.perImageCounts.map Prod.fst).Nodup) :
    dm.cumSums.length = dm.keylist.length + 1 ∧
    dm.cumSums.getD 0 0 = 0 ∧
    (∀ i, i ≤ dm.keylist.length →
      dm.cumSums.getD i 0 =
        ((dm.keylist.take i).map (fun k => (alookup dm.data k).getD 0)).sum) ∧
    List.Chain' (· ≤ ·) dm.cumSums ∧
    dm.cumSums.getLast? = some dm.obCount ∧
    dm.obCount = (dm.data.map Prod.snd).sum := by
  obtain ⟨hnodup, hkey, hcs, hob, hsum⟩ := populated_model_facts db dm hdm hnd
  refine ⟨?_, ?_, ?_, ?_, ?_, hob⟩
  · rw [hcs, buildCumSums_length]
  · rw [hcs, buildCumSums_getD_zero]
  · intro i hi
    rw [hcs, buildCumSums_getD _ _ _ i hi]
    omega
  · rw [hcs]
    exact buildCumSums_chain _ _ _
  · rw [hcs, buildCumSums_getLast?]
    congr 1
    omega

/-- C1: for every freshly populated model and every draw
`t ∈ [1, obCount]`, the global-pool index computation of
`GetRandomObject` lands on an image of strictly positive object count,
and the 1-based rank `t - cumSums[j-1]` lies in `[1, count]`; in
particular a zero-count image is never selected. -/
theorem c1_global_draw_valid (db : DB) (dm : DataModel)
    (hdm : dm = PopulateModel db DataModel.init false)
    (hnd : (db.perImageCounts.map Prod.fst).Nodup)
    (t : Nat) (ht1 : 1 ≤ t) (ht2 : t ≤ dm.obCount) :
    ∃ j, firstOfRun dm.cumSums (searchsortedLeft dm.cumSums t) = j ∧
      1 ≤ j ∧ j ≤ dm.keylist.length ∧
      0 < (alookup dm.data (dm.keylist.getD (j - 1) [])).getD 0 ∧
      1 ≤ t - dm.cumSums.getD (j - 1) 0 ∧
      t - dm.cumSums.getD (j - 1) 0 ≤
        (alookup dm.data (dm.keylist.getD (j - 1) [])).getD 0 ∧
      GetRandomObject dm t =
        some (dm.keylist.getD (j - 1) [], t - dm.cumSums.getD (j - 1) 0) := by
  obtain ⟨hnodup, hkey, hcs, hob, hsum⟩ := populated_model_facts db dm hdm hnd
  have hle : t ≤ 0 + (dm.keylist.map
      (fun k => (alookup dm.data k).getD 0)).sum := by
    omega
  rcases bcs_search (fun k => (alookup dm.data k).getD 0) dm.keylist 0 t
    (by omega) hle with ⟨j, hj, h1, hlen, hprev, hcur, hcnt⟩
  rw [← hcs] at hj hprev hcur hcnt
  have hrun : firstOfRun dm.cumSums (searchsortedLeft dm.cumSums t) = j := by
    rw [hj]
    exact firstOfRun_eq h1 (lt_of_lt_of_le hprev hcur)
  refine ⟨j, hrun, h1, hlen, by omega, by omega, by omega, ?_⟩
  have hget : dm.keylist.get? (j - 1) =
      some (dm.keylist.getD (j - 1) []) :=
    get?_eq_some_getD dm.keylist (j - 1) [] (by omega)
  simp only [GetRandomObject, hrun, hget]

theorem c1_witness :
    (dbC.perImageCounts.map Prod.fst).Nodup ∧ 1 ≤ 3 ∧ 3 ≤ dmC.obCount ∧
    (∃ j, firstOfRun dmC.cumSums (searchsortedLeft dmC.cumSums 3) = j ∧
      1 ≤ j ∧ j ≤ dmC.keylist.length ∧
      0 < (alookup dmC.data (dmC.keylist.getD (j - 1) [])).getD 0 ∧
      1 ≤ 3 - dmC.cumSums.getD (j - 1) 0 ∧
      3 - dmC.cumSums.getD (j - 1) 0 ≤
        (alookup dmC.data (dmC.keylist.getD (j - 1) [])).getD 0 ∧
      GetRandomObject dmC 3 =
        some (dmC.keylist.getD (j - 1) [], 3 - dmC.cumSums.getD (j - 1) 0)) :=
  ⟨by decide, by decide, by decide,
   c1_global_draw_valid dbC dmC rfl (by decide) 3 (by decide) (by decide)⟩

theorem c5_witness :
    (dbC.perImageCounts.map Prod.fst).Nodup ∧
    (dmC.cumSums.length = dmC.keylist.length + 1 ∧
     dmC.cumSums.getD 0 0 = 0 ∧
     (∀ i, i ≤ dmC.keylist.length →
       dmC.cumSums.getD i 0 =
         ((dmC.keylist.take i).map (fun k => (alookup dmC.data k).getD 0)).sum) ∧
     List.Chain' (· ≤ ·) dmC.cumSums ∧
     dmC.cumSums.getLast? = some dmC.obCount ∧
     dmC.obCount = (dmC.data.map Prod.snd).sum) :=
  ⟨by decide, c5_cumsum_invariants dbC dmC rfl (by decide)⟩

theorem lookupCounts_some (d : List (ImKey × Nat)) :
    ∀ (ks : List ImKey), (∀ k ∈ ks, (alookup d k).isSome) →
    lookupCounts d ks = some (ks.map (fun k => (alookup d k).getD 0))
  | [], _ => rfl
  | k :: ks, h => by
    rcases Option.isSome_iff_exists.mp (h k (by simp)) with ⟨c, hc⟩
    have ih := lookupCounts_some d ks (fun k2 hk2 => h k2 (by simp [hk2]))
    simp [lookupCounts, hc, ih]

theorem cumsumFrom_getLastD :
    ∀ (counts : List Nat) (s d : Nat),
    (cumsumFrom s counts).getLastD d =
      if counts.isEmpty then d else s + counts.sum
  | [], s, d => by simp [cumsumFrom]
  | c :: cs, s, d => by
    rw [cumsumFrom, List.getLastD_cons, cumsumFrom_getLastD cs (s + c) (s + c)]
    cases cs with
    | nil => simp
    | cons c2 cs2 =>
      simp only [List.isEmpty_cons, List.sum_cons, if_neg Bool.false_ne_true]
      omega

/-- C2: subset sampling over image keys that are all present in the model
but whose counts sum to zero (including the empty key list) returns the
empty list for any number of draws, raising no error. -/
theorem c2_subset_zero_total_empty (dm : DataModel) (ks : List ImKey)
    (draws : List Nat)
    (hk : ∀ k ∈ ks, (alookup dm.data k).isSome)
    (hz : (ks.map (fun k => (alookup dm.data k).getD 0)).sum = 0) :
    GetRandomObjects dm (some ks) draws = some [] := by
  cases ks with
  | nil => rfl
  | cons k0 ks0 =>
    have hlc := lookupCounts_some dm.data (k0 :: ks0) hk
    simp only [GetRandomObjects, hlc, npCumsum]
    rw [cumsumFrom_getLastD]
    simp only [List.map_cons, List.isEmpty_cons, if_neg Bool.false_ne_true]
    have hz2 : ((alookup dm.data k0).getD 0 ::
        ks0.map (fun k => (alookup dm.data k).getD 0)).sum = 0 := by
      simpa using hz
    rw [hz2]
    simp

theorem c2_witness :
    (∀ k ∈ [([1] : ImKey)], (alookup dmC.data k).isSome) ∧
    (([([1] : ImKey)]).map (fun k => (alookup dmC.data k).getD 0)).sum = 0 ∧
    GetRandomObjects dmC (some [[1]]) [1, 2, 3] = some [] :=
  ⟨by decide, by decide,
   c2_subset_zero_total_empty dmC [[1]] [1, 2, 3] (by decide) (by decide)⟩

/-- C3 (amended): `DeleteModel` resets the object-count map, the forward
group maps, the cumulative-sum array and the total count, but leaves the
ordered key list, the reverse group maps, the group column names, the
group column types and the filter cache unchanged. -/
theorem c3_delete_resets_partially (dm : DataModel) :
    (DeleteModel dm).data = [] ∧
    (DeleteModel dm).groupMaps = [] ∧
    (DeleteModel dm).cumSums = [] ∧
    (DeleteModel dm).obCount = 0 ∧
    (DeleteModel dm).keylist = dm.keylist ∧
    (DeleteModel dm).revGroupMaps = dm.revGroupMaps ∧
    (DeleteModel dm).groupColNames = dm.groupColNames ∧
    (DeleteModel dm).groupColTypes = dm.groupColTypes ∧
    (DeleteModel dm).filterkeys = dm.filterkeys :=
  ⟨rfl, rfl, rfl, rfl, rfl, rfl, rfl, rfl, rfl⟩

/-- C3 counterexample: on the populated model `dmC`, `DeleteModel` leaves
the ordered key list, the reverse group maps, the column names, the
column types and (vacuously fresh here, shown by the three non-empty
fields) does not return every piece of derived state to its initial
empty value. -/
theorem c3_counterexample :
    (DeleteModel dmC).keylist ≠ [] ∧
    (DeleteModel dmC).revGroupMaps ≠ [] ∧
    (DeleteModel dmC).groupColNames ≠ [] ∧
    (DeleteModel dmC).groupColTypes ≠ [] := by
  decide

/-- C4 (amended): whenever the lookup `revGroupMaps[group][groupKey]`
fails — because the dimension is unknown or because the group key is
unknown within a known dimension — `GetImagesInGroup` returns the empty
list with the model unchanged, for any filter argument; the two failure
cases are not distinguished. -/
theorem c4_unknown_returns_empty (db : DB) (dm : DataModel) (g : String)
    (gk : GroupKey) (f : Option String)
    (h : (alookup dm.revGroupMaps g).bind (fun m => alookup m gk) = none) :
    GetImagesInGroup db dm g gk f = some ([], dm) := by
  simp [GetImagesInGroup, h]

/-- C4 counterexample: on the populated model `dmC` a completely unknown
dimension (`Gene`) produces the same empty, error-free result as an
unknown group key in the known dimension `Well`: the code does not raise
on an unknown dimension. -/
theorem c4_counterexample :
    alookup dmC.revGroupMaps "Gene" = none ∧
    GetImagesInGroup dbC dmC "Gene" [GVal.s "A01"] none = some ([], dmC) ∧
    (alookup dmC.revGroupMaps "Well").isSome = true ∧
    alookup ((alookup dmC.revGroupMaps "Well").getD []) [GVal.s "Z99"] = none ∧
    GetImagesInGroup dbC dmC "Well" [GVal.s "Z99"] none = some ([], dmC) := by
  decide

theorem c4_witness :
    (alookup dmC.revGroupMaps "Gene").bind
      (fun m => alookup m [GVal.s "A01"]) = none ∧
    GetImagesInGroup dbC dmC "Gene" [GVal.s "A01"] none = some ([], dmC) :=
  ⟨by decide,
   c4_unknown_returns_empty dbC dmC "Gene" [GVal.s "A01"] none (by decide)⟩

/-- C9: populating a second time (without `delete_model`) when the model
is already populated is a no-op: the resulting state is identical to the
state after the single initial population, whatever the data source
would now return. -/
theorem c9_populate_idempotent (db db2 : DB) (dm : DataModel)
    (hdm : dm = PopulateModel db DataModel.init false)
    (hne : dm.IsEmpty = false) :
    PopulateModel db2 dm false = dm := by
  have hnoop : ∀ (db3 : DB) (dm3 : DataModel), dm3.IsEmpty = false →
      PopulateModel db3 dm3 false = dm3 := by
    intro db3 dm3 h
    simp [PopulateModel, h]
  subst hdm
  exact hnoop db2 _ hne

theorem c9_witness :
    dmC.IsEmpty = false ∧ PopulateModel dbC dmC false = dmC :=
  ⟨by decide, c9_populate_idempotent dbC dbC dmC rfl (by decide)⟩

/-- C10: on the wildcard path the filter argument is irrelevant — any two
filter values (and even any two data sources, so no filter query can be
issued) give the same result — and the returned model state is the input
state, so nothing is cached. -/
theorem c10_wildcard_filter_independent (db1 db2 : DB) (dm : DataModel)
    (g : String) (gk : GroupKey) (f1 f2 : Option String)
    (hw : wildcard ∈ gk) :
    GetImagesInGroupWithWildcards db1 dm g gk f1 =
      GetImagesInGroupWithWildcards db2 dm g gk f2 ∧
    (∀ l dm2, GetImagesInGroupWithWildcards db1 dm g gk f1 = some (l, dm2) →
      dm2 = dm) := by
  constructor
  · simp [GetImagesInGroupWithWildcards, hw]
  · intro l dm2 h
    simp only [GetImagesInGroupWithWildcards, if_pos hw] at h
    cases halo : alookup dm.revGroupMaps g with
    | none =>
      simp only [halo] at h
      exact absurd h (by simp)
    | some rm =>
      simp only [halo, Option.some_inj] at h
      exact (congrArg Prod.snd h).symm

theorem c10_witness :
    wildcard ∈ [wildcard, GVal.s "A01"] ∧
    GetImagesInGroupWithWildcards dbC dmW "Well" [wildcard, GVal.s "A01"]
        none =
      GetImagesInGroupWithWildcards dbC dmW "Well" [wildcard, GVal.s "A01"]
        (some "f") :=
  ⟨by decide,
   (c10_wildcard_filter_independent dbC dbC dmW "Well"
     [wildcard, GVal.s "A01"] none (some "f") (by decide)).1⟩

theorem mem_wildcard_foldl (gk : GroupKey) :
    ∀ (rm : List (GroupKey × List ImKey)) (acc : List ImKey) (x : ImKey),
    (x ∈ rm.foldl
        (fun acc p => if gkMatches p.1 gk then acc ++ p.2 else acc) acc ↔
      x ∈ acc ∨ ∃ p ∈ rm, gkMatches p.1 gk = true ∧ x ∈ p.2)
  | [], acc, x => by simp
  | p :: rm, acc, x => by
    simp only [List.foldl_cons]
    rw [mem_wildcard_foldl gk rm _ x]
    by_cases h : gkMatches p.1 gk
    · simp [h, List.mem_append, or_assoc]
    · simp [h]

/-- C6: when the query group key contains the wildcard sentinel, the
wildcard lookup returns exactly the entities accumulated from every
stored group key that agrees with the query on all non-wildcard
positions. -/
theorem c6_wildcard_union (db : DB) (dm : DataModel) (g : String)
    (gk : GroupKey) (f : Option String) (rm : List (GroupKey × List ImKey))
    (hrm : alookup dm.revGroupMaps g = some rm)
    (hw : wildcard ∈ gk) :
    ∃ l, GetImagesInGroupWithWildcards db dm g gk f = some (l, dm) ∧
      ∀ x, x ∈ l ↔ ∃ p ∈ rm, gkMatches p.1 gk = true ∧ x ∈ p.2 := by
  refine ⟨rm.foldl
    (fun acc p => if gkMatches p.1 gk then acc ++ p.2 else acc) [], ?_, ?_⟩
  · simp [GetImagesInGroupWithWildcards, hw, hrm]
  · intro x
    rw [mem_wildcard_foldl]
    simp

theorem c6_witness :
    alookup dmW.revGroupMaps "Well" = some rmW ∧
    wildcard ∈ [wildcard, GVal.s "A01"] ∧
    (∃ l, GetImagesInGroupWithWildcards dbC dmW "Well"
        [wildcard, GVal.s "A01"] none = some (l, dmW) ∧
      ∀ x, x ∈ l ↔ ∃ p ∈ rmW,
        gkMatches p.1 [wildcard, GVal.s "A01"] = true ∧ x ∈ p.2) ∧
    GetImagesInGroupWithWildcards dbC dmW "Well" [wildcard, GVal.s "A01"]
      none = some ([[1], [3]], dmW) :=
  ⟨by decide, by decide,
   c6_wildcard_union dbC dmW "Well" [wildcard, GVal.s "A01"] none rmW
     (by decide) (by decide),
   by decide⟩

theorem npAdd_length {a b c : List Int} (h : npAdd a b = some c) :
    c.length = a.length := by
  unfold npAdd at h
  by_cases h1 : b.length = a.length
  · rw [if_pos h1] at h
    cases h
    simp [List.length_zipWith, h1]
  · rw [if_neg h1] at h
    by_cases h2 : b.length = 1
    · rw [if_pos h2] at h
      cases h
      simp
    · rw [if_neg h2] at h
      cases h

theorem npAdd_none {a b : List Int} (h1 : b.length ≠ a.length)
    (h2 : b.length ≠ 1) : npAdd a b = none := by
  simp [npAdd, h1, h2]

theorem zipWith_add_getD :
    ∀ (a b : List Int) (j : Nat), b.length = a.length → j < a.length →
    (a.zipWith (· + ·) b).getD j 0 = a.getD j 0 + b.getD j 0
  | [], _, j => by
    intro _ hj
    simp at hj
  | x :: a, [], j => by
    intro h
    simp at h
  | x :: a, y :: b, 0 => by
    intro _ _
    simp
  | x :: a, y :: b, j + 1 => by
    intro h hj
    simp only [List.zipWith_cons_cons, List.getD_cons_succ]
    exact zipWith_add_getD a b j (by simpa using h) (by simpa using hj)

theorem replicate_getD_zero : ∀ (W j : Nat), (List.replicate W (0 : Int)).getD j 0 = 0
  | 0, _ => by simp
  | W + 1, 0 => by simp [List.replicate]
  | W + 1, j + 1 => by
    simp only [List.replicate, List.getD_cons_succ]
    exact replicate_getD_zero W j

theorem initLoop_none (gm : List (ImKey × GroupKey)) (W : Nat) :
    ∀ (todo : List (ImKey × List Int)) (gd : List (GroupKey × List Int)),
    (∃ p ∈ todo, alookup gm p.1 = none) →
    initLoop gm W todo gd = none
  | [], gd => by
    rintro ⟨q, hq, _⟩
    exact absurd hq (List.not_mem_nil q)
  | p :: todo, gd => by
    rintro ⟨q, hq, hqn⟩
    rcases List.mem_cons.mp hq with rfl | hq2
    · simp [initLoop, hqn]
    · cases hp : alookup gm p.1 with
      | none => simp [initLoop, hp]
      | some gk =>
        simp only [initLoop, hp]
        exact initLoop_none gm W todo _ ⟨q, hq2, hqn⟩

theorem initLoop_some (gm : List (ImKey × GroupKey)) (W : Nat) :
    ∀ (todo : List (ImKey × List Int)) (gd : List (GroupKey × List Int)),
    (∀ p ∈ todo, (alookup gm p.1).isSome) →
    ∃ gdi, initLoop gm W todo gd = some gdi ∧
      ∀ gk, ((∃ p ∈ todo, alookup gm p.1 = some gk) →
          alookup gdi gk = some (List.replicate W 0)) ∧
        ((¬ ∃ p ∈ todo, alookup gm p.1 = some gk) →
          alookup gdi gk = alookup gd gk)
  | [], gd => fun _ =>
    ⟨gd, rfl, fun gk =>
      ⟨by
        rintro ⟨q, hq, _⟩
        exact absurd hq (List.not_mem_nil q),
       fun _ => rfl⟩⟩
  | p :: todo, gd => fun h => by
    rcases Option.isSome_iff_exists.mp (h p (by simp)) with ⟨gk0, hgk0⟩
    rcases initLoop_some gm W todo (dictInsert gd gk0 (List.replicate W 0))
      (fun q hq => h q (by simp [hq])) with ⟨gdi, hgdi, hspec⟩
    refine ⟨gdi, by simp [initLoop, hgk0, hgdi], ?_⟩
    intro gk
    constructor
    · rintro ⟨q, hq, hqe⟩
      rcases List.mem_cons.mp hq with rfl | hq2
      · rw [hgk0] at hqe
        have hgg : gk0 = gk := Option.some_inj.mp hqe
        subst hgg
        by_cases hex : ∃ r ∈ todo, alookup gm r.1 = some gk0
        · exact (hspec gk0).1 hex
        · rw [(hspec gk0).2 hex, alookup_dictInsert, if_pos rfl]
      · exact (hspec gk).1 ⟨q, hq2, hqe⟩
    · intro hnex
      have hnex2 : ¬ ∃ q ∈ todo, alookup gm q.1 = some gk := by
        intro ⟨q, hq, hqe⟩
        exact hnex ⟨q, by simp [hq], hqe⟩
      have hne : gk ≠ gk0 := by
        intro he
        exact hnex ⟨p, by simp, he ▸ hgk0⟩
      rw [(hspec gk).2 hnex2, alookup_dictInsert, if_neg hne]

theorem accLoop_some (gm : List (ImKey × GroupKey)) (W : Nat) :
    ∀ (todo : List (ImKey × List Int)) (gd : List (GroupKey × List Int)),
    (∀ gk v, alookup gd gk = some v → v.length = W) →
    (∀ p ∈ todo, ∃ gk, alookup gm p.1 = some gk ∧ (alookup gd gk).isSome) →
    (∀ p ∈ todo, p.2.length = W) →
    ∃ gd2, accLoop gm todo gd = some gd2 ∧
      (∀ gk, (alookup gd2 gk).isSome ↔ (alookup gd gk).isSome) ∧
      (∀ gk v, alookup gd2 gk = some v → v.length = W) ∧
      (∀ gk cur, alookup gd gk = some cur →
        ∃ v, alookup gd2 gk = some v ∧ ∀ j, j < W →
          v.getD j 0 = cur.getD j 0 +
            ((todo.filter (fun p => decide (alookup gm p.1 = some gk))).map
              (fun p => p.2.getD j 0)).sum)
  | [], gd => fun hlen _ _ =>
    ⟨gd, rfl, fun _ => Iff.rfl, hlen, fun gk cur hcur =>
      ⟨cur, hcur, fun j _ => by simp⟩⟩
  | p :: todo, gd => fun hlen hmem hvlen => by
    rcases hmem p (by simp) with ⟨gk0, hgk0, hsome0⟩
    rcases Option.isSome_iff_exists.mp hsome0 with ⟨cur0, hcur0⟩
    have hcl : cur0.length = W := hlen gk0 cur0 hcur0
    have hpl : p.2.length = W := hvlen p (by simp)
    have hnp : npAdd cur0 p.2 = some (cur0.zipWith (· + ·) p.2) := by
      simp [npAdd, hpl, hcl]
    have hnvlen : (cur0.zipWith (· + ·) p.2).length = W := by
      simp [List.length_zipWith, hpl, hcl]
    have hlen1 : ∀ gk v,
        alookup (dictInsert gd gk0 (cur0.zipWith (· + ·) p.2)) gk = some v →
        v.length = W := by
      intro gk v hv
      rw [alookup_dictInsert] at hv
      by_cases hgg : gk = gk0
      · rw [if_pos hgg] at hv
        cases hv
        exact hnvlen
      · rw [if_neg hgg] at hv
        exact hlen gk v hv
    have hmem1 : ∀ q ∈ todo, ∃ gk, alookup gm q.1 = some gk ∧
        (alookup (dictInsert gd gk0 (cur0.zipWith (· + ·) p.2)) gk).isSome := by
      intro q hq
      rcases hmem q (by simp [hq]) with ⟨gk, hgk, hs⟩
      refine ⟨gk, hgk, ?_⟩
      rw [alookup_dictInsert]
      by_cases hgg : gk = gk0
      · rw [if_pos hgg]
        rfl
      · rw [if_neg hgg]
        exact hs
    rcases accLoop_some gm W todo (dictInsert gd gk0 (cur0.zipWith (· + ·) p.2))
      hlen1 hmem1 (fun q hq => hvlen q (by simp [hq])) with
      ⟨gd2, hacc, hiso, hlen2, hval⟩
    refine ⟨gd2, by simp only [accLoop, hgk0, hcur0, hnp]; exact hacc, ?_, hlen2, ?_⟩
    · intro gk
      rw [hiso gk, alookup_dictInsert]
      by_cases hgg : gk = gk0
      · subst hgg
        simp [hcur0]
      · rw [if_neg hgg]
    · intro gk cur hcur
      by_cases hgg : gk = gk0
      · have hc : cur = cur0 := by
          rw [hgg, hcur0] at hcur
          exact (Option.some_inj.mp hcur).symm
        have hd1 : alookup (dictInsert gd gk0 (cur0.zipWith (· + ·) p.2)) gk =
            some (cur0.zipWith (· + ·) p.2) := by
          rw [alookup_dictInsert, if_pos hgg]
        rcases hval gk _ hd1 with ⟨v, hv, hvj⟩
        refine ⟨v, hv, ?_⟩
        intro j hj
        have hzip := zipWith_add_getD cur0 p.2 j (by omega) (by omega)
        have hfil : ((p :: todo).filter
            (fun q => decide (alookup gm q.1 = some gk))).map
              (fun q => q.2.getD j 0) =
            p.2.getD j 0 :: ((todo.filter
              (fun q => decide (alookup gm q.1 = some gk))).map
                (fun q => q.2.getD j 0)) := by
          rw [List.filter_cons_of_pos (by simp [hgk0, hgg])]
          simp
        rw [hfil, List.sum_cons, hvj j hj, hzip, hc]
        omega
      · have hd1 : alookup (dictInsert gd gk0 (cur0.zipWith (· + ·) p.2)) gk =
            some cur := by
          rw [alookup_dictInsert, if_neg hgg]
          exact hcur
        rcases hval gk cur hd1 with ⟨v, hv, hvj⟩
        refine ⟨v, hv, ?_⟩
        intro j hj
        have hfil : ((p :: todo).filter
            (fun q => decide (alookup gm q.1 = some gk))).map
              (fun q => q.2.getD j 0) =
            (todo.filter
              (fun q => decide (alookup gm q.1 = some gk))).map
                (fun q => q.2.getD j 0) := by
          rw [List.filter_cons_of_neg]
          simp [hgk0]
          intro he
          exact hgg he.symm
        rw [hfil]
        exact hvj j hj

theorem accLoop_none_of_badlen (gm : List (ImKey × GroupKey)) (W : Nat) :
    ∀ (todo : List (ImKey × List Int)) (gd : List (GroupKey × List Int)),
    (∀ gk v, alookup gd gk = some v → v.length = W) →
    (∀ p ∈ todo, ∃ gk, alookup gm p.1 = some gk ∧ (alookup gd gk).isSome) →
    (∃ p ∈ todo, p.2.length ≠ W ∧ p.2.length ≠ 1) →
    accLoop gm todo gd = none
  | [], gd => fun _ _ hbad => by
    rcases hbad with ⟨q, hq, _⟩
    exact absurd hq (List.not_mem_nil q)
  | p :: todo, gd => fun hlen hmem hbad => by
    rcases hmem p (by simp) with ⟨gk0, hgk0, hsome0⟩
    rcases Option.isSome_iff_exists.mp hsome0 with ⟨cur0, hcur0⟩
    have hcl : cur0.length = W := hlen gk0 cur0 hcur0
    rcases hbad with ⟨q, hq, hql⟩
    rcases List.mem_cons.mp hq with rfl | hq2
    · have hnone : npAdd cur0 q.2 = none :=
        npAdd_none (by omega) hql.2
      simp [accLoop, hgk0, hcur0, hnone]
    · cases hnp : npAdd cur0 p.2 with
      | none => simp [accLoop, hgk0, hcur0, hnp]
      | some nv =>
        have hnvlen : nv.length = W := by
          rw [npAdd_length hnp]
          exact hcl
        have hlen1 : ∀ gk v, alookup (dictInsert gd gk0 nv) gk = some v →
            v.length = W := by
          intro gk v hv
          rw [alookup_dictInsert] at hv
          by_cases hgg : gk = gk0
          · rw [if_pos hgg] at hv
            cases hv
            exact hnvlen
          · rw [if_neg hgg] at hv
            exact hlen gk v hv
        have hmem1 : ∀ r ∈ todo, ∃ gk, alookup gm r.1 = some gk ∧
            (alookup (dictInsert gd gk0 nv) gk).isSome := by
          intro r hr
          rcases hmem r (by simp [hr]) with ⟨gk, hgk, hs⟩
          refine ⟨gk, hgk, ?_⟩
          rw [alookup_dictInsert]
          by_cases hgg : gk = gk0
          · rw [if_pos hgg]
            rfl
          · rw [if_neg hgg]
            exact hs
        simp only [accLoop, hgk0, hcur0, hnp]
        exact accLoop_none_of_badlen gm W todo (dictInsert gd gk0 nv)
          hlen1 hmem1 ⟨q, hq2, hql⟩

theorem initLoop_post (gm : List (ImKey × GroupKey)) (W : Nat)
    (imdata : List (ImKey × List Int))
    (hall : ∀ p ∈ imdata, (alookup gm p.1).isSome) :
    ∃ gdi, initLoop gm W imdata [] = some gdi ∧
      (∀ gk, (alookup gdi gk).isSome ↔
        ∃ p ∈ imdata, alookup gm p.1 = some gk) ∧
      (∀ gk v, alookup gdi gk = some v → v.length = W) ∧
      (∀ p ∈ imdata, ∃ gk, alookup gm p.1 = some gk ∧
        (alookup gdi gk).isSome) := by
  rcases initLoop_some gm W imdata [] hall with ⟨gdi, hinit, hspec⟩
  have hiso0 : ∀ gk, (alookup gdi gk).isSome ↔
      ∃ p ∈ imdata, alookup gm p.1 = some gk := by
    intro gk
    by_cases hex : ∃ p ∈ imdata, alookup gm p.1 = some gk
    · simp [(hspec gk).1 hex, hex]
    · rw [(hspec gk).2 hex]
      simp [alookup, hex]
  have hlen0 : ∀ gk v, alookup gdi gk = some v → v.length = W := by
    intro gk v hv
    by_cases hex : ∃ p ∈ imdata, alookup gm p.1 = some gk
    · rw [(hspec gk).1 hex] at hv
      cases hv
      simp
    · rw [(hspec gk).2 hex] at hv
      simp [alookup] at hv
  have hmem0 : ∀ p ∈ imdata, ∃ gk, alookup gm p.1 = some gk ∧
      (alookup gdi gk).isSome := by
    intro p hp
    rcases Option.isSome_iff_exists.mp (hall p hp) with ⟨gk, hgk⟩
    exact ⟨gk, hgk, (hiso0 gk).mpr ⟨p, hp, hgk⟩⟩
  exact ⟨gdi, hinit, hiso0, hlen0, hmem0⟩

theorem initLoop_post_replicate (gm : List (ImKey × GroupKey)) (W : Nat)
    (imdata : List (ImKey × List Int)) (gdi : List (GroupKey × List Int))
    (hall : ∀ p ∈ imdata, (alookup gm p.1).isSome)
    (hinit : initLoop gm W imdata [] = some gdi) :
    ∀ gk, (∃ p ∈ imdata, alookup gm p.1 = some gk) →
      alookup gdi gk = some (List.replicate W 0) := by
  rcases initLoop_some gm W imdata [] hall with ⟨gdi2, hinit2, hspec⟩
  have he : gdi2 = gdi := by
    rw [hinit] at hinit2
    exact (Option.some_inj.mp hinit2).symm
  subst he
  exact fun gk hex => (hspec gk).1 hex

/-- C7: with a known dimension, a non-empty input whose entities all have
a group and whose value vectors all share the width of the first vector,
`SumToGroup` succeeds; the resulting keys are exactly the group keys of
the input entities, and each group key maps to the elementwise sum of the
vectors of the entities in that group. -/
theorem c7_sum_to_group (dm : DataModel) (g : String)
    (gm : List (ImKey × GroupKey)) (imdata : List (ImKey × List Int))
    (p0 : ImKey × List Int)
    (hgm : alookup dm.groupMaps g = some gm)
    (hhead : imdata.head? = some p0)
    (hall : ∀ p ∈ imdata, (alookup gm p.1).isSome)
    (hlen : ∀ p ∈ imdata, p.2.length = p0.2.length) :
    ∃ gd, SumToGroup dm imdata g = some gd ∧
      (∀ gk, (alookup gd gk).isSome ↔
        ∃ p ∈ imdata, alookup gm p.1 = some gk) ∧
      (∀ gk v, alookup gd gk = some v → v.length = p0.2.length) ∧
      (∀ gk, (∃ p ∈ imdata, alookup gm p.1 = some gk) →
        ∃ v, alookup gd gk = some v ∧ ∀ j, j < p0.2.length →
          v.getD j 0 =
            ((imdata.filter (fun p => decide (alookup gm p.1 = some gk))).map
              (fun p => p.2.getD j 0)).sum) := by
  rcases initLoop_post gm p0.2.length imdata hall with
    ⟨gdi, hinit, hiso0, hlen0, hmem0⟩
  rcases accLoop_some gm p0.2.length imdata gdi hlen0 hmem0 hlen with
    ⟨gd2, hacc, hiso, hlen2, hval⟩
  have hsum : SumToGroup dm imdata g = some gd2 := by
    simp only [SumToGroup, hgm, hhead, hinit, hacc]
  refine ⟨gd2, hsum, ?_, hlen2, ?_⟩
  · intro gk
    rw [hiso gk, hiso0 gk]
  · intro gk hex
    have hrep := initLoop_post_replicate gm p0.2.length imdata gdi hall hinit
      gk hex
    rcases hval gk _ hrep with ⟨v, hv, hvj⟩
    refine ⟨v, hv, ?_⟩
    intro j hj
    rw [hvj j hj, replicate_getD_zero]
    omega

theorem c7_witness :
    alookup dmG.groupMaps "G" = some gmG ∧
    imdata7.head? = some ([1], [1, 2]) ∧
    (∀ p ∈ imdata7, (alookup gmG p.1).isSome) ∧
    (∀ p ∈ imdata7, p.2.length = 2) ∧
    (∃ gd, SumToGroup dmG imdata7 "G" = some gd ∧
      (∀ gk, (alookup gd gk).isSome ↔
        ∃ p ∈ imdata7, alookup gmG p.1 = some gk) ∧
      (∀ gk v, alookup gd gk = some v → v.length = 2) ∧
      (∀ gk, (∃ p ∈ imdata7, alookup gmG p.1 = some gk) →
        ∃ v, alookup gd gk = some v ∧ ∀ j, j < 2 →
          v.getD j 0 =
            ((imdata7.filter (fun p => decide (alookup gmG p.1 = some gk))).map
              (fun p => p.2.getD j 0)).sum)) ∧
    SumToGroup dmG imdata7 "G" =
      some [([GVal.s "g"], [4, 6]), ([GVal.s "g2"], [5, 6])] :=
  ⟨by decide, by decide, by decide, by decide,
   c7_sum_to_group dmG "G" gmG imdata7 ([1], [1, 2])
     (by decide) (by decide) (by decide) (by decide),
   by decide⟩

/-- C8 (amended): in `SumToGroup`, an entity whose group is unknown in
the dimension is an error (`KeyError`), never silently dropped; and a
value vector whose length differs from the width taken from the first
vector is an error (`ValueError`) — except when that vector has length 1,
in which case numpy broadcasting silently adds it to every component and
a result is produced (see the counterexample). -/
theorem c8_mismatch_and_unknown_errors (dm : DataModel) (g : String)
    (gm : List (ImKey × GroupKey)) (imdata : List (ImKey × List Int))
    (p0 : ImKey × List Int)
    (hgm : alookup dm.groupMaps g = some gm)
    (hhead : imdata.head? = some p0) :
    ((∃ p ∈ imdata, alookup gm p.1 = none) →
      SumToGroup dm imdata g = none) ∧
    ((∀ p ∈ imdata, (alookup gm p.1).isSome) →
      (∃ p ∈ imdata, p.2.length ≠ p0.2.length ∧ p.2.length ≠ 1) →
      SumToGroup dm imdata g = none) := by
  constructor
  · intro hex
    have hinit := initLoop_none gm p0.2.length imdata [] hex
    simp only [SumToGroup, hgm, hhead, hinit]
  · intro hall hbad
    rcases initLoop_post gm p0.2.length imdata hall with
      ⟨gdi, hinit, _, hlen0, hmem0⟩
    have hacc := accLoop_none_of_badlen gm p0.2.length imdata gdi
      hlen0 hmem0 hbad
    simp only [SumToGroup, hgm, hhead, hinit, hacc]

/-- C8 counterexample: the input `e1:[1,2], e2:[3]` has two value vectors
of different lengths, yet `SumToGroup` silently produces
`{g: [4, 5]}` — numpy broadcasts the length-1 vector — instead of
failing. -/
theorem c8_counterexample :
    imdata8b.map (fun p => p.2.length) = [2, 1] ∧
    SumToGroup dmG imdata8b "G" = some [([GVal.s "g"], [4, 5])] := by
  decide

theorem c8_witness :
    alookup dmG.groupMaps "G" = some gmG ∧
    imdata8a.head? = some ([1], [1, 2]) ∧
    (∀ p ∈ imdata8a, (alookup gmG p.1).isSome) ∧
    (∃ p ∈ imdata8a, p.2.length ≠ 2 ∧ p.2.length ≠ 1) ∧
    SumToGroup dmG imdata8a "G" = none ∧
    imdata8u.head? = some ([1], [1, 2]) ∧
    (∃ p ∈ imdata8u, alookup gmG p.1 = none) ∧
    SumToGroup dmG imdata8u "G" = none :=
  ⟨by decide, by decide, by decide, by decide,
   (c8_mismatch_and_unknown_errors dmG "G" gmG imdata8a ([1], [1, 2])
     (by decide) (by decide)).2 (by decide) (by decide),
   by decide, by decide,
   (c8_mismatch_and_unknown_errors dmG "G" gmG imdata8u ([1], [1, 2])
     (by decide) (by decide)).1 (by decide)⟩
